import Mathlib

/-!
Verification of the vbuilder CLI (src/cmd/root.go) against its specification.

The Go program is shallowly embedded: every pure helper from the Go standard
library that the program uses (strings.Fields, strings.HasPrefix,
bufio.ScanLines, filepath.Clean, filepath.Base, filepath.Dir, filepath.Join,
filepath.Abs, fmt.Sprintf with string verbs) is translated into an executable
Lean function, and the effectful pipeline is translated into explicit state
passing: an Env record supplies the outcomes of the external world (file
opening, subprocess runs, the working directory, the USER variable, the
service-file write), and each step returns its log lines, its subprocess
trace and its file writes.
-/

/-- Outcome of running an external command, mirroring the error of
exec.Cmd.Run: either the process exited with a non-zero status or it could
not be started at all. -/
inductive ExecErr where
  | exitStatus (code : Int)
  | startError (m : String)
deriving DecidableEq, Repr

/-- One subprocess invocation: program, arguments, and the working directory
when the Go code sets cmd.Dir. -/
structure Invocation where
  prog : String
  args : List String
  dir : Option String := none
deriving DecidableEq, Repr

/-- Errors produced by the pipeline steps: either a formatted message
(fmt.Errorf) or a propagated subprocess error. -/
inductive GoErr where
  | msg (s : String)
  | exec (e : ExecErr)
deriving DecidableEq, Repr

/-- A line sent to the logging sink, tagged with its level. -/
inductive LogMsg where
  | error (s : String)
  | info (s : String)
deriving DecidableEq, Repr

/-- Result of opening and scanning the go.mod file: the lines the scanner
yielded, plus the scanner error (if reading failed mid-stream) that
scanner.Err() would report afterwards. -/
structure GoModRead where
  lines : List String
  scanErr : Option String
deriving DecidableEq, Repr

/-- The external world as the program observes it: file opening, subprocess
outcomes, the current working directory (os.Getwd), the USER environment
variable (os.Getenv), and the outcome of the descriptor write
(os.WriteFile), which the Go code discards. -/
structure Env where
  openGoMod : String → Except String GoModRead
  run : Invocation → Except ExecErr Unit
  getwd : Except String String
  user : String
  writeErr : Option String

/-- Observable effects of a step: log lines, subprocess invocations in
order, and file writes (path, content). -/
structure StepOut where
  log : List LogMsg := []
  trace : List Invocation := []
  writes : List (String × String) := []
deriving DecidableEq, Repr

/-! ## Go standard-library helpers (string side) -/

/-- strings.HasPrefix: the first string is a prefix of the second. -/
def hasPre (pre s : String) : Bool := pre.data.isPrefixOf s.data

/-- unicode.IsSpace, as used by strings.Fields: ASCII spacing characters
plus the Unicode space code points recognised by the Go unicode tables. -/
def goIsSpace (c : Char) : Bool :=
  c == ' ' || c == '\t' || c == '\n' || c == '\x0b' || c == '\x0c' || c == '\r' ||
  c == '\x85' || c == '\xa0' ||
  decide (c.toNat = 0x1680) ||
  (decide (0x2000 ≤ c.toNat) && decide (c.toNat ≤ 0x200a)) ||
  decide (c.toNat = 0x2028) || decide (c.toNat = 0x2029) ||
  decide (c.toNat = 0x202f) || decide (c.toNat = 0x205f) ||
  decide (c.toNat = 0x3000)

/-- Worker for strings.Fields: walks the characters, accumulating the
current field in reverse. -/
def fieldsGo : List Char → List Char → List String
  | [], [] => []
  | [], acc => [⟨acc.reverse⟩]
  | c :: rest, acc =>
    if goIsSpace c then
      if acc = [] then fieldsGo rest []
      else ⟨acc.reverse⟩ :: fieldsGo rest []
    else fieldsGo rest (c :: acc)

/-- strings.Fields: split around maximal runs of white space. -/
def goFields (s : String) : List String := fieldsGo s.data []

/-- dropCR from bufio.ScanLines: remove one trailing carriage return.  The
argument is the line accumulated in reverse, so the carriage return, when
present, is the head. -/
def mkLine (rev : List Char) : String :=
  ⟨(match rev with
    | '\r' :: rest => rest
    | r => r).reverse⟩

/-- Worker for the bufio scanner with ScanLines: emits a line at every
newline, and a final line when input ends with unterminated data. -/
def goScan : List Char → List Char → List String
  | [], [] => []
  | [], acc => [mkLine acc]
  | '\n' :: rest, acc => mkLine acc :: goScan rest []
  | c :: rest, acc => goScan rest (c :: acc)

/-- The sequence of lines a bufio.Scanner with ScanLines yields on the given
content. -/
def scanLines (content : String) : List String := goScan content.data []

/-! ## Go standard-library helpers (filepath side, unix rules) -/

/-- os.IsPathSeparator on unix. -/
def isPathSep (c : Char) : Bool := c == '/'

/-- The backtracking step of filepath.Clean for a ".." element: the lazybuf
holds the output reversed; pop characters until right after popping a
separator, never shrinking below dotdot. -/
def popSegment : List Char → Char → Nat → List Char
  | [], _, _ => []
  | c2 :: rest, popped, dotdot =>
    if dotdot < (c2 :: rest).length ∧ isPathSep popped = false then
      popSegment rest c2 dotdot
    else c2 :: rest

/-- The element-processing loop of filepath.Clean.  The output buffer is
kept reversed; fuel bounds the number of iterations and is passed as the
length of the remaining input, which each iteration strictly consumes, so
the fuel-exhausted branch is unreachable from goClean. -/
def cleanLoop : Nat → List Char → Bool → List Char → Nat → List Char
  | _, [], _, out, _ => out
  | 0, _ :: _, _, out, _ => out
  | fuel + 1, c :: rest, rooted, out, dotdot =>
    if isPathSep c then
      cleanLoop fuel rest rooted out dotdot
    else if c = '.' ∧ (rest = [] ∨ rest.head? = some '/') then
      cleanLoop fuel rest rooted out dotdot
    else if c = '.' ∧ rest.head? = some '.' ∧ (rest.tail = [] ∨ rest.tail.head? = some '/') then
      if dotdot < out.length then
        cleanLoop fuel rest.tail rooted
          (match out with
           | [] => []
           | c2 :: rest3 => popSegment rest3 c2 dotdot) dotdot
      else if rooted = false then
        let out2 := '.' :: '.' :: (if out.length ≠ 0 then '/' :: out else out)
        cleanLoop fuel rest.tail rooted out2 out2.length
      else
        cleanLoop fuel rest.tail rooted out dotdot
    else
      let out2 := if (rooted = true ∧ out.length ≠ 1) ∨ (rooted = false ∧ out.length ≠ 0)
        then '/' :: out else out
      cleanLoop fuel (rest.dropWhile (fun x => ¬ isPathSep x))
        rooted ((rest.takeWhile (fun x => ¬ isPathSep x)).reverse ++ (c :: out2)) dotdot

/-- filepath.Clean on unix: shortest lexically equivalent path. -/
def goClean (path : String) : String :=
  if path = "" then "."
  else
    let cs := path.data
    let outRev :=
      if cs.head? = some '/' then cleanLoop (cs.drop 1).length (cs.drop 1) true ['/'] 1
      else cleanLoop cs.length cs false [] 0
    let outRev2 := if outRev = [] then ['.'] else outRev
    ⟨outRev2.reverse⟩

/-- filepath.Base on unix: last element of the path after stripping
trailing separators. -/
def goBase (path : String) : String :=
  if path = "" then "."
  else
    let stripped := (path.data.reverse.dropWhile isPathSep).reverse
    if stripped = [] then "/"
    else ⟨(stripped.reverse.takeWhile (fun c => ¬ isPathSep c)).reverse⟩

/-- filepath.Dir on unix: drop the final element, then Clean. -/
def goDir (path : String) : String :=
  goClean ⟨(path.data.reverse.dropWhile (fun c => ¬ isPathSep c)).reverse⟩

/-- filepath.Join for the two-argument uses in the program: join the
non-empty elements with a separator, then Clean. -/
def goJoin (a b : String) : String :=
  if a ≠ "" then goClean (a ++ "/" ++ b)
  else if b ≠ "" then goClean b
  else ""

/-- filepath.IsAbs on unix: strings.HasPrefix(path, "/"). -/
def goIsAbs (p : String) : Bool := hasPre "/" p

/-- filepath.Abs: Clean when already absolute, otherwise Join with the
working directory; the os.Getwd error is propagated. -/
def goAbs (env : Env) (path : String) : Except String String :=
  if goIsAbs path then .ok (goClean path)
  else
    match env.getwd with
    | .error e => .error e
    | .ok wd => .ok (goJoin wd path)

/-! ## fmt.Sprintf for string verbs -/

/-- fmt.Sprintf restricted to the string verb: each percent-s in the format
consumes the next argument; a missing argument renders the Go placeholder
text. -/
def sprintfChars : List Char → List String → List Char
  | [], _ => []
  | '%' :: 's' :: rest, a :: args => a.data ++ sprintfChars rest args
  | '%' :: 's' :: rest, [] =>
    '%' :: '!' :: 's' :: '(' :: 'M' :: 'I' :: 'S' :: 'S' :: 'I' :: 'N' :: 'G' :: ')' ::
      sprintfChars rest []
  | c :: rest, args => c :: sprintfChars rest args

/-- String-level wrapper of sprintfChars. -/
def sprintfStr (f : String) (args : List String) : String := ⟨sprintfChars f.data args⟩

/-! ## The program (src/cmd/root.go) -/

/-- The raw service template passed to fmt.Sprintf in generateServiceFile. -/
def serviceTemplate : String :=
  "[Unit]\nDescription=vortex.studio/%s Service\nAfter=network.target\n\n[Service]\nExecStart=%s\nRestart=always\nUser=%s\nWorkingDirectory=%s\nRestartSec=10\n\n[Install]\nWantedBy=multi-user.target\n"

/-- Render an ExecErr the way the Go error interface would. -/
def execErrStr : ExecErr → String
  | .exitStatus n => "exit status " ++ toString n
  | .startError m => m

/-- Render a GoErr the way the percent-v verb would. -/
def errStr : GoErr → String
  | .msg s => s
  | .exec e => execErrStr e

/-- The scanning loop of getModuleName: the first line with prefix
"module" that splits into at least two fields yields
filepath.Base of the second field; every other line is passed over. -/
def findModule : List String → Option String
  | [] => none
  | line :: rest =>
    if hasPre "module" line then
      match goFields line with
      | _ :: second :: _ => some (goBase second)
      | _ => findModule rest
    else findModule rest

/-- getModuleName from root.go: open projectPath/go.mod, scan its lines for
the module declaration, and map the open, scan and missing-declaration
failures to their fmt.Errorf messages. -/
def getModuleName (env : Env) (projectPath : String) : Except GoErr String :=
  let goModFile := goJoin projectPath "go.mod"
  match env.openGoMod goModFile with
  | .error e => .error (.msg ("failed to open go.mod file: " ++ e))
  | .ok rd =>
    match findModule rd.lines with
    | some name => .ok name
    | none =>
      match rd.scanErr with
      | some e => .error (.msg ("failed to read go.mod file: " ++ e))
      | none => .error (.msg "module name not found in go.mod")

/-- The go build invocation issued by buildGoProject, with cmd.Dir set to
the project path. -/
def buildInv (projectPath binaryName : String) : Invocation :=
  ⟨"go", ["build", "-o", goJoin projectPath binaryName, projectPath], some projectPath⟩

/-- buildGoProject from root.go: run go build with the output path inside
the project, then resolve the absolute path of the binary.  Returns the
step result together with the subprocess trace. -/
def buildGoProject (env : Env) (projectPath binaryName : String) :
    Except GoErr String × List Invocation :=
  let binaryPath := goJoin projectPath binaryName
  let inv := buildInv projectPath binaryName
  match env.run inv with
  | .error e => (.error (.exec e), [inv])
  | .ok _ =>
    match goAbs env binaryPath with
    | .error e => (.error (.msg ("failed to get absolute path of binary: " ++ e)), [inv])
    | .ok absBinaryPath => (.ok absBinaryPath, [inv])

/-- The rendered descriptor content: the fixed template with the service
name, the binary path, the USER variable and filepath.Dir of the binary
path substituted by fmt.Sprintf. -/
def generateServiceContent (binaryPath serviceName userEnv : String) : String :=
  sprintfStr serviceTemplate [serviceName, binaryPath, userEnv, goDir binaryPath]

/-- generateServiceFile from root.go: render the template and write it to
servicePath with os.WriteFile, whose result the Go code discards (the
binding of env.writeErr below is dropped exactly as the source drops the
returned error); the function reports nothing to its caller. -/
def generateServiceFile (env : Env) (servicePath binaryPath serviceName : String) : StepOut :=
  let serviceContent := generateServiceContent binaryPath serviceName env.user
  let _ := env.writeErr
  { writes := [(servicePath, serviceContent)] }

/-- The elevated copy invocation of the installer. -/
def cpInv (serviceFilePath serviceName : String) : Invocation :=
  ⟨"sudo", ["cp", serviceFilePath, sprintfStr "/etc/systemd/system/%s.service" [serviceName]], none⟩

/-- The elevated daemon-reload invocation of the installer. -/
def reloadInv : Invocation := ⟨"sudo", ["systemctl", "daemon-reload"], none⟩

/-- The elevated enable invocation of the installer. -/
def enableInv (serviceName : String) : Invocation :=
  ⟨"sudo", ["systemctl", "enable", sprintfStr "%s.service" [serviceName]], none⟩

/-- The elevated start invocation of the installer. -/
def startInv (serviceName : String) : Invocation :=
  ⟨"sudo", ["systemctl", "start", sprintfStr "%s.service" [serviceName]], none⟩

/-- copyServiceToSystemd from root.go: copy, reload, enable, start; each
step runs only when all previous steps succeeded, each failure is logged
and aborts the rest. -/
def copyServiceToSystemd (env : Env) (serviceFilePath serviceName : String) : StepOut :=
  let systemdPath := sprintfStr "/etc/systemd/system/%s.service" [serviceName]
  let c := cpInv serviceFilePath serviceName
  match env.run c with
  | .error e =>
    { log := [.error ("Failed to copy service file to systemd: " ++ execErrStr e)], trace := [c] }
  | .ok _ =>
    let copied := LogMsg.info ("Service file copied to: " ++ systemdPath)
    match env.run reloadInv with
    | .error e =>
      { log := [copied, .error ("Failed to reload systemd daemon: " ++ execErrStr e)],
        trace := [c, reloadInv] }
    | .ok _ =>
      let en := enableInv serviceName
      match env.run en with
      | .error e =>
        { log := [copied, .error ("Failed to enable service: " ++ execErrStr e)],
          trace := [c, reloadInv, en] }
      | .ok _ =>
        let st := startInv serviceName
        match env.run st with
        | .error e =>
          { log := [copied, .error ("Failed to start service: " ++ execErrStr e)],
            trace := [c, reloadInv, en, st] }
        | .ok _ =>
          { log := [copied, .info "Service enabled and started successfully."],
            trace := [c, reloadInv, en, st] }

/-- runProjectSetup from root.go: resolve the module name, build, generate
the descriptor (logging success unconditionally), and install only when the
install flag is set.  Each failing step logs and returns early. -/
def runProjectSetup (env : Env) (installFlag : Bool) (projectPath : String) : StepOut :=
  match getModuleName env projectPath with
  | .error e => { log := [.error ("Error: " ++ errStr e)] }
  | .ok moduleName =>
    let binaryName := moduleName
    match buildGoProject env projectPath binaryName with
    | (.error e, tr) =>
      { log := [.error ("Failed to build the Go project: " ++ errStr e)], trace := tr }
    | (.ok binaryPath, tr) =>
      let serviceFilePath := goJoin projectPath (sprintfStr "%s.service" [binaryName])
      let gen := generateServiceFile env serviceFilePath binaryPath binaryName
      let created := LogMsg.info ("Service file created at: " ++ serviceFilePath)
      if installFlag then
        let inst := copyServiceToSystemd env serviceFilePath binaryName
        { log := created :: inst.log, trace := tr ++ inst.trace, writes := gen.writes }
      else
        { log := [created], trace := tr, writes := gen.writes }

/-- Execute from root.go: cobra parsing is external, so its outcome is a
parameter; a parse failure is logged and the process exits with status 1,
otherwise the pipeline runs and the process returns normally (exit code
none). -/
def Execute (parseResult : Except String (String × Bool)) (env : Env) :
    StepOut × Option Nat :=
  match parseResult with
  | .error e => ({ log := [.error e] }, some 1)
  | .ok (projectPath, installFlag) => (runProjectSetup env installFlag projectPath, none)

/-! ## Convenience environments -/

/-- An environment whose go.mod scan yields the given lines with no read
error, and in which every external action succeeds. -/
def envOfLines (lines : List String) : Env where
  openGoMod := fun _ => .ok ⟨lines, none⟩
  run := fun _ => .ok ()
  getwd := .ok "/home/user"
  user := "user"
  writeErr := none

/-- An environment whose go.mod file holds the given content. -/
def envOfContent (content : String) : Env := envOfLines (scanLines content)

/-- A fully succeeding environment over a one-line go.mod. -/
def okEnv : Env := envOfContent "module example.com/a/b\n"

/-! ## Helper definitions for the claim statements -/

/-- The second whitespace-delimited field of a line (empty when absent). -/
def secondField (l : String) : String :=
  match goFields l with
  | _ :: s :: _ => s
  | _ => ""

/-- The lines getModuleName actually uses: prefix "module" and at least two
fields. -/
def usableLine (l : String) : Bool :=
  hasPre "module" l &&
    (match goFields l with
     | _ :: _ :: _ => true
     | _ => false)

/-- Number of positions at which pat occurs as a substring of s. -/
def countOccs (pat s : String) : Nat :=
  ((List.range (s.length + 1)).filter
    (fun i => pat.data.isPrefixOf (s.data.drop i))).length

/-! ## Helper lemmas -/

lemma genContent_eq (n p u : String) :
    generateServiceContent p n u =
      "[Unit]\nDescription=vortex.studio/" ++ (n ++ (" Service\nAfter=network.target\n\n[Service]\nExecStart=" ++ (p ++ ("\nRestart=always\nUser=" ++ (u ++ ("\nWorkingDirectory=" ++ (goDir p ++ "\nRestartSec=10\n\n[Install]\nWantedBy=multi-user.target\n"))))))) := by
  set_option maxRecDepth 4000 in rfl

lemma strData_append (a b : String) : (a ++ b).data = a.data ++ b.data := rfl

lemma findModule_eq (lines : List String) :
    findModule lines = (lines.find? usableLine).map (fun l => goBase (secondField l)) := by
  induction lines with
  | nil => rfl
  | cons l rest ih =>
    by_cases h : hasPre "module" l = true
    · cases hf : goFields l with
      | nil =>
        simp [findModule, List.find?, usableLine, h, hf, ih]
      | cons a tl =>
        cases tl with
        | nil => simp [findModule, List.find?, usableLine, h, hf, ih]
        | cons b tl2 => simp [findModule, List.find?, usableLine, secondField, h, hf]
    · simp only [Bool.not_eq_true] at h
      simp [findModule, List.find?, usableLine, h, ih]

lemma buildGoProject_snd (env : Env) (projectPath binaryName : String) :
    (buildGoProject env projectPath binaryName).snd = [buildInv projectPath binaryName] := by
  simp only [buildGoProject]
  cases h : env.run (buildInv projectPath binaryName) with
  | error e => rfl
  | ok u =>
    cases h2 : goAbs env (goJoin projectPath binaryName) with
    | error e => rfl
    | ok s => rfl

lemma copyTrace_head (env : Env) (sfp name : String) :
    ∃ t, (copyServiceToSystemd env sfp name).trace = cpInv sfp name :: t := by
  simp only [copyServiceToSystemd]
  cases h : env.run (cpInv sfp name) with
  | error e => exact ⟨[], rfl⟩
  | ok u =>
    cases h2 : env.run reloadInv with
    | error e => exact ⟨_, rfl⟩
    | ok u2 =>
      cases h3 : env.run (enableInv name) with
      | error e => exact ⟨_, rfl⟩
      | ok u3 =>
        cases h4 : env.run (startInv name) with
        | error e => exact ⟨_, rfl⟩
        | ok u4 => exact ⟨_, rfl⟩

lemma dropWhile_len_le (p : Char → Bool) (l : List Char) : (l.dropWhile p).length ≤ l.length := by
  induction l with
  | nil => simp
  | cons c rest ih =>
    rw [List.dropWhile_cons]
    split
    · exact Nat.le_trans ih (Nat.le_succ _)
    · exact Nat.le_refl _

lemma popSegment_inv (out : List Char) (c : Char) (d : Nat) (hd : d ≤ out.length) :
    d ≤ (popSegment out c d).length ∧
    (0 < d → (popSegment out c d).getLast? = out.getLast?) := by
  induction out generalizing c with
  | nil => exact ⟨hd, fun _ => rfl⟩
  | cons c2 rest ih =>
    rw [popSegment]
    by_cases h : d < (c2 :: rest).length ∧ isPathSep c = false
    · rw [if_pos h]
      have hd2 : d ≤ rest.length := by
        have := h.1
        simp only [List.length_cons] at this
        omega
      obtain ⟨hlen, hlast⟩ := ih c2 hd2
      refine ⟨hlen, fun hdpos => ?_⟩
      rw [hlast hdpos]
      have hne : rest ≠ [] := by
        intro hre
        rw [hre] at hd2
        simp only [List.length_nil] at hd2
        omega
      cases rest with
      | nil => exact absurd rfl hne
      | cons r rs => rw [List.getLast?_cons_cons]
    · rw [if_neg h]
      exact ⟨hd, fun _ => rfl⟩

lemma cleanLoop_succ (n : Nat) (c : Char) (rest : List Char) (rooted : Bool)
    (out : List Char) (dotdot : Nat) :
    cleanLoop (n + 1) (c :: rest) rooted out dotdot =
      if isPathSep c then cleanLoop n rest rooted out dotdot
      else if c = '.' ∧ (rest = [] ∨ rest.head? = some '/') then
        cleanLoop n rest rooted out dotdot
      else if c = '.' ∧ rest.head? = some '.' ∧ (rest.tail = [] ∨ rest.tail.head? = some '/') then
        if dotdot < out.length then
          cleanLoop n rest.tail rooted
            (match out with
             | [] => []
             | c2 :: rest3 => popSegment rest3 c2 dotdot) dotdot
        else if rooted = false then
          cleanLoop n rest.tail rooted
            ('.' :: '.' :: (if out.length ≠ 0 then '/' :: out else out))
            ('.' :: '.' :: (if out.length ≠ 0 then '/' :: out else out)).length
        else cleanLoop n rest.tail rooted out dotdot
      else
        cleanLoop n (rest.dropWhile (fun x => ¬ isPathSep x)) rooted
          ((rest.takeWhile (fun x => ¬ isPathSep x)).reverse ++
            (c :: (if (rooted = true ∧ out.length ≠ 1) ∨ (rooted = false ∧ out.length ≠ 0)
              then '/' :: out else out))) dotdot := rfl

lemma cleanLoop_rooted_inv (f : Nat) (cs out : List Char)
    (h1 : 0 < out.length) (h2 : out.getLast? = some '/') :
    0 < (cleanLoop f cs true out 1).length ∧
    (cleanLoop f cs true out 1).getLast? = some '/' := by
  induction f generalizing cs out with
  | zero =>
    cases cs with
    | nil => exact ⟨h1, h2⟩
    | cons c rest => exact ⟨h1, h2⟩
  | succ n ih =>
    cases cs with
    | nil => exact ⟨h1, h2⟩
    | cons c rest =>
      rw [cleanLoop_succ]
      by_cases hsep : isPathSep c = true
      · rw [if_pos hsep]
        exact ih rest out h1 h2
      · rw [if_neg hsep]
        by_cases hdot : c = '.' ∧ (rest = [] ∨ rest.head? = some '/')
        · rw [if_pos hdot]
          exact ih rest out h1 h2
        · rw [if_neg hdot]
          by_cases hddot : c = '.' ∧ rest.head? = some '.' ∧
              (rest.tail = [] ∨ rest.tail.head? = some '/')
          · rw [if_pos hddot]
            by_cases hpop : 1 < out.length
            · rw [if_pos hpop]
              cases out with
              | nil => simp at h1
              | cons c2 rest3 =>
                have hd3 : 1 ≤ rest3.length := by
                  simp only [List.length_cons] at hpop
                  omega
                obtain ⟨hlen, hlast⟩ := popSegment_inv rest3 c2 1 hd3
                have hr3ne : rest3 ≠ [] := by
                  intro hre
                  rw [hre] at hd3
                  simp at hd3
                have hglast : rest3.getLast? = some '/' := by
                  cases rest3 with
                  | nil => exact absurd rfl hr3ne
                  | cons r rs => rw [← List.getLast?_cons_cons (a := c2)]; exact h2
                exact ih rest.tail (popSegment rest3 c2 1) (by omega)
                  (by rw [hlast (by omega)]; exact hglast)
            · rw [if_neg hpop, if_neg (by simp : ¬(true = false))]
              exact ih rest.tail out h1 h2
          · rw [if_neg hddot]
            have hout2 : ∀ out2 : List Char, out2 ≠ [] → out2.getLast? = some '/' →
                0 < ((rest.takeWhile (fun x => ¬ isPathSep x)).reverse ++ (c :: out2)).length ∧
                ((rest.takeWhile (fun x => ¬ isPathSep x)).reverse ++ (c :: out2)).getLast? =
                  some '/' := by
              intro out2 hne hlast
              constructor
              · simp
              · rw [List.getLast?_append_of_ne_nil _ (by simp)]
                cases out2 with
                | nil => exact absurd rfl hne
                | cons a b => rw [List.getLast?_cons_cons]; exact hlast
            by_cases hcond : (true = true ∧ out.length ≠ 1) ∨ (true = false ∧ out.length ≠ 0)
            · rw [if_pos hcond]
              obtain ⟨ha, hb⟩ := hout2 ('/' :: out) (by simp)
                (by cases out with
                    | nil => simp at h1
                    | cons a b => rw [List.getLast?_cons_cons]; exact h2)
              exact ih _ _ ha hb
            · rw [if_neg hcond]
              obtain ⟨ha, hb⟩ := hout2 out (by intro hh; rw [hh] at h1; simp at h1) h2
              exact ih _ _ ha hb

lemma goIsAbs_data (p : String) :
    goIsAbs p = true ↔ ∃ rest, p.data = '/' :: rest := by
  unfold goIsAbs hasPre
  show (['/'].isPrefixOf p.data) = true ↔ _
  cases hp : p.data with
  | nil => simp [List.isPrefixOf]
  | cons a tl =>
    simp only [List.isPrefixOf, Bool.and_true, beq_iff_eq]
    constructor
    · intro h
      exact ⟨tl, by rw [← h]⟩
    · rintro ⟨rest, hr⟩
      cases hr
      rfl

lemma goIsAbs_goClean (p : String) (h : goIsAbs p = true) : goIsAbs (goClean p) = true := by
  obtain ⟨rest, hp⟩ := (goIsAbs_data p).mp h
  have hne : p ≠ "" := by
    intro he
    rw [he] at hp
    simp at hp
  unfold goClean
  rw [if_neg hne]
  simp only [hp, List.head?_cons, List.drop_succ_cons, List.drop_zero]
  simp only [if_true]
  have hinv := cleanLoop_rooted_inv rest.length rest ['/'] (by simp) (by simp)
  rw [if_neg (by intro hh; rw [hh] at hinv; simp at hinv)]
  rw [goIsAbs_data]
  have hrev := List.head?_reverse (cleanLoop rest.length rest true ['/'] 1)
  rw [hinv.2] at hrev
  cases hc : (cleanLoop rest.length rest true ['/'] 1).reverse with
  | nil => rw [hc] at hrev; simp at hrev
  | cons a tl =>
    rw [hc] at hrev
    simp only [List.head?_cons, Option.some.injEq] at hrev
    refine ⟨tl, ?_⟩
    show a :: tl = '/' :: tl
    rw [hrev]

lemma goIsAbs_append (a b : String) (h : goIsAbs a = true) : goIsAbs (a ++ b) = true := by
  obtain ⟨rest, ha⟩ := (goIsAbs_data a).mp h
  rw [goIsAbs_data]
  refine ⟨rest ++ b.data, ?_⟩
  rw [strData_append, ha]
  rfl

lemma goJoin_abs (a b : String) (h : goIsAbs a = true) : goIsAbs (goJoin a b) = true := by
  have hne : a ≠ "" := by
    obtain ⟨rest, ha⟩ := (goIsAbs_data a).mp h
    intro he
    rw [he] at ha
    simp at ha
  unfold goJoin
  rw [if_pos hne]
  exact goIsAbs_goClean _ (goIsAbs_append _ _ (goIsAbs_append _ _ h))

lemma goAbs_ok_abs (env : Env) (wd p : String)
    (hwd : env.getwd = Except.ok wd) (habs : goIsAbs wd = true) :
    ∃ s, goAbs env p = Except.ok s ∧ goIsAbs s = true := by
  unfold goAbs
  by_cases h : goIsAbs p = true
  · rw [if_pos h]
    exact ⟨_, rfl, goIsAbs_goClean p h⟩
  · rw [if_neg h, hwd]
    exact ⟨_, rfl, goJoin_abs wd p habs⟩

lemma two_occs_le (n t1 t2 t3 s : String) (hn : n.data ≠ [])
    (hs : s = t1 ++ (n ++ (t2 ++ (n ++ t3)))) : 2 ≤ countOccs n s := by
  have hdata : s.data = t1.data ++ (n.data ++ (t2.data ++ (n.data ++ t3.data))) := by
    rw [hs]
    rfl
  have hdata2 : s.data = (t1.data ++ (n.data ++ t2.data)) ++ (n.data ++ t3.data) := by
    rw [hdata]
    simp [List.append_assoc]
  have hp1 : n.data.isPrefixOf (s.data.drop t1.data.length) = true := by
    rw [hdata, List.drop_left]
    simp [List.isPrefixOf_iff_prefix]
  have hp2 : n.data.isPrefixOf
      (s.data.drop (t1.data.length + n.data.length + t2.data.length)) = true := by
    have he : t1.data.length + n.data.length + t2.data.length =
        (t1.data ++ (n.data ++ t2.data)).length := by
      simp [List.length_append, Nat.add_assoc]
    rw [he, hdata2, List.drop_left]
    simp [List.isPrefixOf_iff_prefix]
  have hslen : s.length = s.data.length := rfl
  have hlen : s.data.length =
      t1.data.length + (n.data.length + (t2.data.length +
        (n.data.length + t3.data.length))) := by
    rw [hdata]
    simp [List.length_append]
  have hnpos : 0 < n.data.length := List.length_pos.mpr hn
  have h1mem : t1.data.length ∈ (List.range (s.length + 1)).filter
      (fun i => n.data.isPrefixOf (s.data.drop i)) := by
    rw [List.mem_filter]
    refine ⟨List.mem_range.mpr ?_, hp1⟩
    rw [hslen, hlen]
    omega
  have h2mem : t1.data.length + n.data.length + t2.data.length ∈
      (List.range (s.length + 1)).filter
        (fun i => n.data.isPrefixOf (s.data.drop i)) := by
    rw [List.mem_filter]
    refine ⟨List.mem_range.mpr ?_, hp2⟩
    rw [hslen, hlen]
    omega
  have hne12 : t1.data.length ≠ t1.data.length + n.data.length + t2.data.length := by
    omega
  have hnd : ((List.range (s.length + 1)).filter
      (fun i => n.data.isPrefixOf (s.data.drop i))).Nodup :=
    (List.nodup_range _).filter _
  have hsub : ({t1.data.length, t1.data.length + n.data.length + t2.data.length} :
      Finset Nat) ⊆
      ((List.range (s.length + 1)).filter
        (fun i => n.data.isPrefixOf (s.data.drop i))).toFinset := by
    intro x hx
    rcases Finset.mem_insert.mp hx with hx1 | hx2
    · subst hx1
      exact List.mem_toFinset.mpr h1mem
    · rw [Finset.mem_singleton] at hx2
      subst hx2
      exact List.mem_toFinset.mpr h2mem
  have hcard2 : ({t1.data.length, t1.data.length + n.data.length + t2.data.length} :
      Finset Nat).card = 2 := by
    rw [Finset.card_insert_of_not_mem (by
      simp only [Finset.mem_singleton]
      exact hne12), Finset.card_singleton]
  calc 2 = ({t1.data.length, t1.data.length + n.data.length + t2.data.length} :
        Finset Nat).card := hcard2.symm
    _ ≤ _ := Finset.card_le_card hsub
    _ = countOccs n s := List.toFinset_card_of_nodup hnd

/-! ## Claims -/

set_option maxRecDepth 16000 in
/-- C1, counterexample: the claim says the service name is substituted into
the template in two places, five substitutions in all.  For the concrete
inputs below the rendered descriptor contains the service name NAME7 at
exactly one position, so no decomposition with two occurrences of the name
exists. -/
theorem c1_counterexample :
    ¬ ∃ t1 t2 t3 : String,
      generateServiceContent "/srv/app" "NAME7" "u" =
        t1 ++ ("NAME7" ++ (t2 ++ ("NAME7" ++ t3))) := by
  rintro ⟨t1, t2, t3, h⟩
  have h2 := two_occs_le "NAME7" t1 t2 t3
    (generateServiceContent "/srv/app" "NAME7" "u") (by decide) h
  have h1 : countOccs "NAME7" (generateServiceContent "/srv/app" "NAME7" "u") = 1 := by decide
  rw [h1] at h2
  omega

/-- C1, amended: for every service name, binary path and user value, the
rendered descriptor is byte-for-byte the fixed template with exactly four
substitutions applied: the service name in one place (the unit
description), the binary path, the user from the environment, and the
working directory (the directory containing the binary). -/
theorem c1_descriptor_is_template_with_four_substitutions
    (serviceName binaryPath userEnv : String) :
    generateServiceContent binaryPath serviceName userEnv =
      "[Unit]\nDescription=vortex.studio/" ++ (serviceName ++
        (" Service\nAfter=network.target\n\n[Service]\nExecStart=" ++ (binaryPath ++
          ("\nRestart=always\nUser=" ++ (userEnv ++
            ("\nWorkingDirectory=" ++ (goDir binaryPath ++
              "\nRestartSec=10\n\n[Install]\nWantedBy=multi-user.target\n"))))))) :=
  genContent_eq serviceName binaryPath userEnv

set_option maxRecDepth 16000 in
/-- C2, counterexample: the claim says only lines whose first
whitespace-delimited token equals the keyword are used.  On a manifest
whose only line has first token modulex, the resolver nevertheless
succeeds and returns the last path segment of its second token, because
the code tests a character prefix, not token equality. -/
theorem c2_counterexample :
    getModuleName (envOfContent "modulex example.com/foo\n") "p" = Except.ok "foo" ∧
    (goFields "modulex example.com/foo").head? = some "modulex" ∧
    "modulex" ≠ "module" :=
  ⟨rfl, rfl, by decide⟩

/-- C2, amended: for every manifest content, the resolver returns the final
path segment of the second whitespace-delimited token of the first line
that starts with the character prefix module and splits into at least two
tokens; lines without that prefix, and prefixed lines with fewer than two
tokens, are never used, and when no such line exists the resolver fails
with the declaration-missing error. -/
theorem c2_resolver_uses_first_prefixed_line (content path : String) :
    getModuleName (envOfContent content) path =
      match (scanLines content).find? usableLine with
      | some l => Except.ok (goBase (secondField l))
      | none => Except.error (GoErr.msg "module name not found in go.mod") := by
  simp only [getModuleName, envOfContent, envOfLines]
  rw [findModule_eq]
  cases (scanLines content).find? usableLine with
  | none => rfl
  | some l => rfl

set_option maxRecDepth 16000 in
/-- C3: for a manifest containing the line module example.com/foo/bar, the
resolver succeeds and returns exactly bar. -/
theorem c3_example_manifest_resolves_to_bar (path : String) :
    getModuleName (envOfContent "module example.com/foo/bar\n") path =
      Except.ok "bar" := rfl

/-- C9: a line that starts with the module prefix but splits into fewer
than two whitespace-delimited tokens is skipped and scanning continues, so
the remaining lines determine the result, and when they yield nothing the
resolver fails with the declaration-missing error. -/
theorem c9_short_module_line_skipped (l : String) (rest : List String) (path : String)
    (h1 : hasPre "module" l = true) (h2 : (goFields l).length < 2) :
    findModule (l :: rest) = findModule rest ∧
    (findModule rest = none →
      getModuleName (envOfLines (l :: rest)) path =
        Except.error (GoErr.msg "module name not found in go.mod")) := by
  have hskip : findModule (l :: rest) = findModule rest := by
    rw [findModule, if_pos h1]
    cases hf : goFields l with
    | nil => rfl
    | cons a tl =>
      cases tl with
      | nil => rfl
      | cons b tl2 =>
        rw [hf] at h2
        simp only [List.length_cons] at h2
        exact absurd h2 (by omega)
  refine ⟨hskip, fun hnone => ?_⟩
  simp only [getModuleName, envOfLines, hskip, hnone]

/-- Witness for C9 at a concrete manifest: the bare line module is skipped
and the following line module a/b supplies the name. -/
theorem c9_witness :
    findModule ["module", "module a/b"] = findModule ["module a/b"] ∧
    (findModule ["module a/b"] = none →
      getModuleName (envOfLines ["module", "module a/b"]) "p" =
        Except.error (GoErr.msg "module name not found in go.mod")) :=
  c9_short_module_line_skipped "module" ["module a/b"] "p" (by decide) (by decide)

/-- C4: when the install flag is unset, no invocation in the subprocess
trace of a pipeline run is privileged (none uses sudo), whatever the
outcomes of the earlier steps. -/
theorem c4_no_elevated_invocation_without_install_flag (env : Env) (projectPath : String) :
    ((runProjectSetup env false projectPath).trace.all
      (fun inv => inv.prog != "sudo")) = true := by
  simp only [runProjectSetup]
  cases hm : getModuleName env projectPath with
  | error e => rfl
  | ok name =>
    simp only [buildGoProject]
    cases hr : env.run (buildInv projectPath name) with
    | error e => rfl
    | ok u =>
      cases ha : goAbs env (goJoin projectPath name) with
      | error e => rfl
      | ok s => rfl

/-- C5: the installer trace is exactly copy, then reload only if copy
succeeded, then enable only if reload succeeded, then start only if enable
succeeded; in particular the trace is always a prefix of the four-step
sequence, so nothing is ever rolled back or attempted out of order. -/
theorem c5_installer_state_machine (env : Env) (sfp name : String) :
    (copyServiceToSystemd env sfp name).trace =
      cpInv sfp name ::
        (match env.run (cpInv sfp name) with
         | .error _ => []
         | .ok _ =>
           reloadInv ::
             (match env.run reloadInv with
              | .error _ => []
              | .ok _ =>
                enableInv name ::
                  (match env.run (enableInv name) with
                   | .error _ => []
                   | .ok _ => [startInv name]))) ∧
    (∃ k, (copyServiceToSystemd env sfp name).trace =
      [cpInv sfp name, reloadInv, enableInv name, startInv name].take k) := by
  simp only [copyServiceToSystemd]
  cases h1 : env.run (cpInv sfp name) with
  | error e => exact ⟨rfl, 1, rfl⟩
  | ok u =>
    cases h2 : env.run reloadInv with
    | error e => exact ⟨rfl, 2, rfl⟩
    | ok u2 =>
      cases h3 : env.run (enableInv name) with
      | error e => exact ⟨rfl, 3, rfl⟩
      | ok u3 =>
        cases h4 : env.run (startInv name) with
        | error e => exact ⟨rfl, 4, rfl⟩
        | ok u4 => exact ⟨rfl, 4, rfl⟩

/-- C6: when the working directory is resolvable and absolute, a build
whose external command exits zero makes the builder return precisely the
absolute form of the project directory joined with the binary name, an
absolute path; and a failing or unstartable build command makes the
builder fail with the propagated subprocess error. -/
theorem c6_builder_returns_canonical_absolute_path (env : Env)
    (projectPath binaryName wd : String)
    (hwd : env.getwd = Except.ok wd) (habs : goIsAbs wd = true) :
    (env.run (buildInv projectPath binaryName) = Except.ok () →
      ∃ s, goAbs env (goJoin projectPath binaryName) = Except.ok s ∧
        (buildGoProject env projectPath binaryName).fst = Except.ok s ∧
        goIsAbs s = true) ∧
    (∀ e, env.run (buildInv projectPath binaryName) = Except.error e →
      (buildGoProject env projectPath binaryName).fst =
        Except.error (GoErr.exec e)) := by
  constructor
  · intro hrun
    obtain ⟨s, hs, hsabs⟩ := goAbs_ok_abs env wd (goJoin projectPath binaryName) hwd habs
    refine ⟨s, hs, ?_, hsabs⟩
    simp only [buildGoProject, hrun, hs]
  · intro e hrun
    simp only [buildGoProject, hrun]

/-- Witness for C6 at a concrete environment and project. -/
theorem c6_witness :
    (okEnv.run (buildInv "/proj" "svc") = Except.ok () →
      ∃ s, goAbs okEnv (goJoin "/proj" "svc") = Except.ok s ∧
        (buildGoProject okEnv "/proj" "svc").fst = Except.ok s ∧
        goIsAbs s = true) ∧
    (∀ e, okEnv.run (buildInv "/proj" "svc") = Except.error e →
      (buildGoProject okEnv "/proj" "svc").fst = Except.error (GoErr.exec e)) :=
  c6_builder_returns_canonical_absolute_path okEnv "/proj" "svc" "/home/user" rfl (by decide)

/-- C7: only a top-level parse failure exits with the non-zero status 1;
when parsing succeeds the process returns normally with no exit code
forced, whatever the pipeline steps do inside the environment. -/
theorem c7_only_parse_failure_exits_nonzero (env : Env) (arg : String × Bool) (e : String) :
    (Execute (Except.ok arg) env).snd = none ∧
    (Execute (Except.error e) env).snd = some 1 ∧ (1 : Nat) ≠ 0 :=
  ⟨rfl, rfl, by decide⟩

/-- C8: the descriptor-generation step reports no error to its caller: the
whole pipeline result is unchanged by the outcome of the service-file
write, and whenever the module resolution and the build succeed the
pipeline logs the creation message and, with the install flag set, still
performs the elevated copy, whatever the write outcome was. -/
theorem c8_write_error_discarded (env : Env) (flag : Bool) (path : String) (w : Option String) :
    runProjectSetup { env with writeErr := w } flag path = runProjectSetup env flag path ∧
    (∀ name bp, getModuleName env path = Except.ok name →
      (buildGoProject env path name).fst = Except.ok bp →
      LogMsg.info ("Service file created at: " ++
          goJoin path (sprintfStr "%s.service" [name])) ∈
        (runProjectSetup env flag path).log ∧
      (flag = true →
        cpInv (goJoin path (sprintfStr "%s.service" [name])) name ∈
          (runProjectSetup env flag path).trace)) := by
  refine ⟨rfl, fun name bp hmod hbuild => ?_⟩
  have hpair : buildGoProject env path name = (Except.ok bp, [buildInv path name]) :=
    Prod.ext hbuild (buildGoProject_snd env path name)
  cases flag with
  | false =>
    simp only [runProjectSetup, hmod, hpair]
    refine ⟨by simp, fun hh => by simp at hh⟩
  | true =>
    simp only [runProjectSetup, hmod, hpair]
    constructor
    · simp
    · intro _
      obtain ⟨t, ht⟩ := copyTrace_head env (goJoin path (sprintfStr "%s.service" [name])) name
      simp only [if_true, ht]
      simp

/-- C10: with an unset or empty USER variable the rendered descriptor
contains a User= line with an empty value (the text between the
surrounding newlines is exactly User=), and generation still completes:
the write of the rendered content is performed and nothing is logged. -/
theorem c10_empty_user_renders_empty_user_line (binaryPath serviceName : String) :
    (∃ pre post, generateServiceContent binaryPath serviceName "" =
      pre ++ ("\nUser=\n" ++ post)) ∧
    (∀ env sp, Env.user env = "" →
      (generateServiceFile env sp binaryPath serviceName).writes =
        [(sp, generateServiceContent binaryPath serviceName "")] ∧
      (generateServiceFile env sp binaryPath serviceName).log = []) := by
  constructor
  · refine ⟨"[Unit]\nDescription=vortex.studio/" ++ (serviceName ++
      (" Service\nAfter=network.target\n\n[Service]\nExecStart=" ++
        (binaryPath ++ "\nRestart=always"))),
      "WorkingDirectory=" ++ (goDir binaryPath ++
        "\nRestartSec=10\n\n[Install]\nWantedBy=multi-user.target\n"), ?_⟩
    rw [genContent_eq]
    simp only [String.append_assoc]
    rfl
  · intro env sp hu
    unfold generateServiceFile
    rw [hu]
    exact ⟨rfl, rfl⟩

/-- Any two fuels at least the length of the remaining input give the same
result, so the fuel-exhausted branch of cleanLoop is unreachable from
goClean, which supplies exactly the input length. -/
lemma cleanLoop_fuel (N : Nat) : ∀ (f g : Nat) (cs out : List Char) (rooted : Bool)
    (dotdot : Nat), cs.length ≤ N → cs.length ≤ f → cs.length ≤ g →
    cleanLoop f cs rooted out dotdot = cleanLoop g cs rooted out dotdot := by
  induction N with
  | zero =>
    intro f g cs out rooted dotdot hN hf hg
    have hnil : cs = [] := List.length_eq_zero.mp (Nat.le_zero.mp hN)
    subst hnil
    cases f <;> cases g <;> rfl
  | succ n ih =>
    intro f g cs out rooted dotdot hN hf hg
    cases cs with
    | nil => cases f <;> cases g <;> rfl
    | cons c rest =>
      cases f with
      | zero => simp at hf
      | succ f2 =>
        cases g with
        | zero => simp at hg
        | succ g2 =>
          have hrf : rest.length ≤ f2 := by
            simp only [List.length_cons] at hf
            omega
          have hrg : rest.length ≤ g2 := by
            simp only [List.length_cons] at hg
            omega
          have hrN : rest.length ≤ n := by
            simp only [List.length_cons] at hN
            omega
          have htail : rest.tail.length ≤ rest.length := by
            cases rest with
            | nil => simp
            | cons a b => simp [Nat.le_succ]
          have hdrop := dropWhile_len_le (fun x => ¬ isPathSep x) rest
          rw [cleanLoop_succ, cleanLoop_succ]
          by_cases hsep : isPathSep c = true
          · rw [if_pos hsep, if_pos hsep]
            exact ih f2 g2 rest out rooted dotdot hrN hrf hrg
          · rw [if_neg hsep, if_neg hsep]
            by_cases hdot : c = '.' ∧ (rest = [] ∨ rest.head? = some '/')
            · rw [if_pos hdot, if_pos hdot]
              exact ih f2 g2 rest out rooted dotdot hrN hrf hrg
            · rw [if_neg hdot, if_neg hdot]
              by_cases hddot : c = '.' ∧ rest.head? = some '.' ∧
                  (rest.tail = [] ∨ rest.tail.head? = some '/')
              · rw [if_pos hddot, if_pos hddot]
                by_cases hpop : dotdot < out.length
                · rw [if_pos hpop, if_pos hpop]
                  exact ih f2 g2 rest.tail _ rooted dotdot (le_trans htail hrN)
                    (le_trans htail hrf) (le_trans htail hrg)
                · rw [if_neg hpop, if_neg hpop]
                  by_cases hroot : rooted = false
                  · rw [if_pos hroot, if_pos hroot]
                    exact ih f2 g2 rest.tail _ rooted _ (le_trans htail hrN)
                      (le_trans htail hrf) (le_trans htail hrg)
                  · rw [if_neg hroot, if_neg hroot]
                    exact ih f2 g2 rest.tail out rooted dotdot (le_trans htail hrN)
                      (le_trans htail hrf) (le_trans htail hrg)
              · rw [if_neg hddot, if_neg hddot]
                exact ih f2 g2 _ _ rooted dotdot (le_trans hdrop hrN)
                  (le_trans hdrop hrf) (le_trans hdrop hrg)
